import Mathlib

/-!
Verification of the classroom-setup and MLflow-notebook routines of the
deep-learning course repository.

The repository's own code is `Includes/Classroom-Setup.py` (dataset
installation and validation over the Databricks filesystem, DBFS) and the
notebook `DL 04 - MLflow.py` (experiment tracking and a Spark prediction
UDF).  DBFS, Spark and MLflow are external platforms; we embed them with a
small explicit model: a filesystem tree, a listing operation that can fail,
an operation trace for `rm`/`cp` calls, a name-indexed UDF registry, and a
list of logged MLflow params.
-/

namespace DLCourse

/-- A DBFS filesystem node: a plain file or a directory with named children. -/
inductive FSNode where
  | file : FSNode
  | dir : List (String × FSNode) → FSNode

/-- `isDir` of a node, mirroring `FileInfo.isDir()` of DBFS. -/
def FSNode.isDir : FSNode → Bool
  | .file => false
  | .dir _ => true

/-- Canonical directory path used by DBFS when forming children paths:
the path followed by a slash (already-slashed paths are kept as is). -/
def dirSlash (p : String) : String := if p.endsWith "/" then p else p ++ "/"

/-- The full DBFS path of a child entry: parent path (with slash), the child
name, and a trailing slash when the child is a directory, as `dbutils.fs.ls`
reports it. -/
def entryPath (cp : String) (name : String) (t : FSNode) : String :=
  cp ++ name ++ (if t.isDir then "/" else "")

/-- One entry returned by `dbutils.fs.ls`: its full path and the node it
denotes (the model's stand-in for resolving the path again). -/
structure FileInfo where
  path : String
  node : FSNode

/-- Model of `dbutils.fs.ls path` at a location holding `x`: listing a
missing path raises, listing a file returns the file itself, and listing a
directory returns one entry per child. -/
def fs_ls (path : String) (x : Option FSNode) : Except String (List FileInfo) :=
  match x with
  | none => Except.error ("java.io.FileNotFoundException: " ++ path)
  | some FSNode.file => Except.ok [⟨path, FSNode.file⟩]
  | some (FSNode.dir cs) =>
      Except.ok (cs.map (fun c => ⟨entryPath (dirSlash path) c.1 c.2, c.2⟩))

/-- Model of `dbutils.fs.mkdirs` at one location: an existing node is left
unchanged, a missing one becomes an empty directory. -/
def fs_mkdirs : Option FSNode → Option FSNode
  | some t => some t
  | none => some (FSNode.dir [])

/-- `path_exists` from Classroom-Setup.py: `try: return
len(dbutils.fs.ls(path)) >= 0 except: return False`, taking the outcome of
the `ls` call as input. -/
def path_exists (lsResult : Except String (List FileInfo)) : Bool :=
  match lsResult with
  | Except.ok files => decide (files.length ≥ 0)
  | Except.error _ => false

mutual
/-- `list_r(path, prefix, results)` from Classroom-Setup.py: lists the tree
below `path`, appending each entry's full path with the first
`pre.length` characters dropped (`file.path[len(prefix):]`), recursing into
directories, and sorting the accumulated list before returning it. -/
def list_r (path pre : String) (t : FSNode) (res : List String) : List String :=
  match t with
  | FSNode.file => res
  | FSNode.dir cs =>
      List.mergeSort (listFiles (dirSlash path) pre cs res) (fun a b => a ≤ b)

/-- The `for file in files:` loop body of `list_r`, folded over the children
of one directory. -/
def listFiles (cp pre : String) (cs : List (String × FSNode)) (res : List String) :
    List String :=
  match cs with
  | [] => res
  | c :: rest =>
      let fpath := entryPath cp c.1 c.2
      let res1 := res ++ [fpath.drop pre.length]
      let res2 := if c.2.isDir then list_r fpath pre c.2 res1 else res1
      listFiles cp pre rest res2
end

mutual
/-- Specification-side description of a recursive listing: the full DBFS
paths of all transitive descendants of a node sitting at `path`. -/
def descPaths (path : String) (t : FSNode) : List String :=
  match t with
  | FSNode.file => []
  | FSNode.dir cs => descChildren (dirSlash path) cs

/-- Descendant paths contributed by a list of children under the slashed
parent path `cp`. -/
def descChildren (cp : String) (cs : List (String × FSNode)) : List String :=
  match cs with
  | [] => []
  | c :: rest =>
      let fpath := entryPath cp c.1 c.2
      (fpath :: descPaths fpath c.2) ++ descChildren cp rest
end

/-- The message of the exception raised by `validate_datasets`. -/
def validation_error : String :=
  "Validation failed - see previous messages for more information."

/-- `validate_datasets` from Classroom-Setup.py: lists the local datasets
directory and the remote source path recursively and raises (modelled as
`Except.error`) as soon as some relative path is present in one listing and
absent from the other; otherwise it returns normally. -/
def validate_datasets (datasets_dir source_path : String) (localT remoteT : FSNode) :
    Except String Unit :=
  let local_files := list_r datasets_dir datasets_dir localT []
  let remote_files := list_r source_path source_path remoteT []
  if local_files.any (fun f => !(remote_files.contains f)) then
    Except.error validation_error
  else if remote_files.any (fun f => !(local_files.contains f)) then
    Except.error validation_error
  else
    Except.ok ()

/-- A mutating DBFS call recorded while running `install_datasets`. -/
inductive FsOp where
  | rm (path : String) (recurse : Bool)
  | cp (src dst : String) (recurse : Bool)
deriving DecidableEq

/-- The locations Classroom-Setup.py touches: the three directories it
creates with `mkdirs` and the datasets directory that `install_datasets`
installs into.  Each field holds the node at that path, `none` when the
path does not exist. -/
structure Workspace where
  userhome : Option FSNode
  course_dir : Option FSNode
  working_dir : Option FSNode
  datasets : Option FSNode

/-- `install_datasets(reinstall)` from Classroom-Setup.py, on a workspace
whose datasets directory holds `w.datasets`, with the remote source tree
`source`.  Returns the new workspace and the trace of `rm`/`cp` calls made:
when `reinstall` is false and the target exists it returns at once; else it
removes an existing target and copies the source tree over recursively
(`dbutils.fs.cp(source_path, target_dir, True)` onto the now-missing target
path installs a copy of the source tree there). -/
def install_datasets (source : FSNode) (datasets_dir source_path : String)
    (reinstall : Bool) (w : Workspace) : Workspace × List FsOp :=
  let target_dir := datasets_dir
  let existing := path_exists (fs_ls target_dir w.datasets)
  if !reinstall && existing then
    (w, [])
  else
    let removed : Workspace × List FsOp :=
      if existing then
        ({ w with datasets := none }, [FsOp.rm target_dir true])
      else
        (w, [])
    ({ removed.1 with datasets := some source },
     removed.2 ++ [FsOp.cp source_path target_dir true])

/-- The filesystem effect of one run of the setup cell sequence: the three
`dbutils.fs.mkdirs` calls followed by `install_datasets`. -/
def setup_filesystem (source : FSNode) (datasets_dir source_path : String)
    (reinstall : Bool) (w : Workspace) : Workspace :=
  let w1 : Workspace :=
    { w with userhome := fs_mkdirs w.userhome,
             course_dir := fs_mkdirs w.course_dir,
             working_dir := fs_mkdirs w.working_dir }
  (install_datasets source datasets_dir source_path reinstall w1).1

/-- A call made by the dataset-installation cell of Classroom-Setup.py. -/
inductive SetupCall where
  | install (reinstall : Bool)
  | validate
deriving DecidableEq

/-- The `try/except` cell of Classroom-Setup.py: read the `reinstall`
widget (which may raise), call `install_datasets` with the parsed flag
(the call may raise, modelled by `firstInstallRaises`), fall back to
`install_datasets(reinstall=False)` on any exception, then call
`validate_datasets`.  The result is the sequence of calls made. -/
def setup_sequence (widget : Except String String) (firstInstallRaises : Bool) :
    List SetupCall :=
  match widget with
  | Except.error _ => [SetupCall.install false, SetupCall.validate]
  | Except.ok w =>
      let reinstall := w.toLower == "true"
      if firstInstallRaises then
        [SetupCall.install reinstall, SetupCall.install false, SetupCall.validate]
      else
        [SetupCall.install reinstall, SetupCall.validate]

/-- The eight feature columns of the California-housing frame, the
`cal_housing.feature_names` both prediction paths are applied to. -/
def feature_names : List String :=
  ["MedInc", "HouseAge", "AveRooms", "AveBedrms",
   "Population", "AveOccup", "Latitude", "Longitude"]

/-- A DataFrame row, reading a value of type `α` for each column name. -/
def Row (α : Type) : Type := String → α

/-- The Spark SQL UDF registry: function values indexed by name. -/
def UdfRegistry (α β : Type) : Type := String → Option (List α → β)

/-- Model of `spark.udf.register(name, f)`: the registry with `name` now
bound to `f`. -/
def udf_register {α β : Type} (env : UdfRegistry α β) (name : String)
    (f : List α → β) : UdfRegistry α β :=
  fun n => if n = name then some f else env n

/-- The DataFrame-API route: `X_test_df.withColumn("prediction",
predict(*cal_housing.feature_names))` — the prediction column it computes,
one value per row. -/
def withColumn_predictions {α β : Type} (predict : List α → β) (df : List (Row α)) :
    List β :=
  df.map (fun row => predict (feature_names.map row))

/-- The SQL route: `SELECT *, predictUDF(MedInc, ..., Longitude) AS
prediction FROM global_temp.X_test_df` — the prediction column computed by
looking `predictUDF` up in the registry and applying it to the eight
feature columns of each row (`none` when the name is unbound). -/
def sql_predictions {α β : Type} (env : UdfRegistry α β) (df : List (Row α)) :
    List (Option β) :=
  df.map (fun row => (env "predictUDF").map (fun f => f (feature_names.map row)))

/-- Python `d[k] = v` on an insertion-ordered dict rendered as an
association list: an existing key keeps its position and takes the new
value, a new key is appended. -/
def dict_set {α : Type} (d : List (String × α)) (k : String) (v : α) :
    List (String × α) :=
  if d.any (fun p => p.1 == k) then
    d.map (fun p => if p.1 == k then (k, v) else p)
  else
    d ++ [(k, v)]

/-- Python `{**a, **b}`: the entries of `b` folded into `a`. -/
def dict_merge {α : Type} (a b : List (String × α)) : List (String × α) :=
  b.foldl (fun acc kv => dict_set acc kv.1 kv.2) a

/-- A value logged with `mlflow.log_param` by `track_experiments`: either a
supplied keyword-argument value or a layer width. -/
inductive ParamValue (α : Type) where
  | kw (v : α)
  | units (n : Nat)
deriving DecidableEq

/-- The key `f"hidden_layer_{i}_units"`. -/
def hidden_layer_key (i : Nat) : String :=
  "hidden_layer_" ++ toString i ++ "_units"

/-- The params logged by `track_experiments` in DL 04 - MLflow.py, in
order: for each entry of `{**compile_kwargs, **fit_kwargs,
**optional_params}` whose key is not in `["x", "y"]`, the key with its
value; then, for each model layer `i`, `hidden_layer_{i}_units` with the
layer's output width. -/
def track_experiments_params {α : Type}
    (compile_kwargs fit_kwargs optional_params : List (String × α))
    (layer_units : List Nat) : List (String × ParamValue α) :=
  (((dict_merge (dict_merge compile_kwargs fit_kwargs) optional_params).filter
      (fun kv => !(kv.1 == "x" || kv.1 == "y"))).map
      (fun kv => (kv.1, ParamValue.kw kv.2)))
  ++ ((layer_units.enum).map (fun p => (hidden_layer_key p.1, ParamValue.units p.2)))

/-- The output widths of the layers `build_model` stacks: Dense(20),
Dense(20), Dense(1). -/
def build_model_layer_units : List Nat := [20, 20, 1]

/-- The `compile_kwargs` of the notebook's ADAM run, values rendered as
strings. -/
def adam_compile_kwargs : List (String × String) :=
  [("optimizer", "adam"), ("loss", "mse"), ("metrics", "[mse, mae]")]

/-- The `fit_kwargs` of the notebook's ADAM run, values rendered as
strings. -/
def adam_fit_kwargs : List (String × String) :=
  [("x", "X_train"), ("y", "y_train"), ("epochs", "10"),
   ("verbose", "2"), ("batch_size", "64")]

/-! ### Helper lemmas -/

/-- A modelled `ls` succeeds exactly on an existing node, so `path_exists`
on it reduces to existence of the node. -/
theorem path_exists_fs_ls (p : String) (x : Option FSNode) :
    path_exists (fs_ls p x) = x.isSome := by
  cases x with
  | none => simp [fs_ls, path_exists]
  | some t => cases t <;> simp [fs_ls, path_exists]

/-- Branch equations of `install_datasets`, with the existence test
evaluated on the state. -/
theorem install_datasets_eq (source : FSNode) (dd sp : String)
    (reinstall : Bool) (w : Workspace) :
    install_datasets source dd sp reinstall w =
      if !reinstall && w.datasets.isSome then (w, [])
      else ({ w with datasets := some source },
            (if w.datasets.isSome then [FsOp.rm dd true] else [])
              ++ [FsOp.cp sp dd true]) := by
  simp only [install_datasets, path_exists_fs_ls]
  by_cases h : w.datasets.isSome = true <;> simp [h]

/-- `install_datasets` leaves an existing node in the datasets directory. -/
theorem install_datasets_isSome (source : FSNode) (dd sp : String)
    (reinstall : Bool) (w : Workspace) :
    ((install_datasets source dd sp reinstall w).1).datasets.isSome = true := by
  rw [install_datasets_eq]
  split
  · next h => exact (Bool.and_eq_true _ _ |>.mp h).2
  · simp

/-- `install_datasets` only writes the datasets directory; the other three
locations are untouched. -/
theorem install_datasets_other_fields (source : FSNode) (dd sp : String)
    (reinstall : Bool) (w : Workspace) :
    ((install_datasets source dd sp reinstall w).1).userhome = w.userhome ∧
    ((install_datasets source dd sp reinstall w).1).course_dir = w.course_dir ∧
    ((install_datasets source dd sp reinstall w).1).working_dir = w.working_dir := by
  rw [install_datasets_eq]
  split <;> simp

/-- `fs_mkdirs` always yields an existing node. -/
theorem fs_mkdirs_isSome (x : Option FSNode) : (fs_mkdirs x).isSome = true := by
  cases x <;> rfl

/-- `fs_mkdirs` is the identity on an existing node. -/
theorem fs_mkdirs_of_isSome (x : Option FSNode) (h : x.isSome = true) :
    fs_mkdirs x = x := by
  cases x with
  | some t => rfl
  | none => simp at h

/-! ### Claim theorems -/

/-- C6: `path_exists` returns `False` exactly when the `dbutils.fs.ls` call
raised, and `True` whenever the listing succeeded — including an empty
directory — because `len(...) >= 0` holds of every successful listing. -/
theorem path_exists_false_iff_raise (r : Except String (List FileInfo)) :
    (path_exists r = false ↔ ∃ e, r = Except.error e) ∧
    (∀ files, r = Except.ok files → path_exists r = true) ∧
    path_exists (Except.ok []) = true := by
  refine ⟨?_, ?_, by simp [path_exists]⟩
  · cases r with
    | ok files => simp [path_exists]
    | error e => simp [path_exists]
  · rintro files rfl
    simp [path_exists]

/-- Witness for C6: a successful empty listing makes `path_exists` true. -/
theorem path_exists_false_iff_raise_witness :
    path_exists (Except.ok ([] : List FileInfo)) = true :=
  (path_exists_false_iff_raise (Except.ok [])).2.1 [] rfl

/-- C2: with `reinstall` false and an existing target, `install_datasets`
returns without any `rm`/`cp`; otherwise it removes the target when it
exists and then recursively copies the source tree onto it. -/
theorem install_datasets_conditional (source : FSNode) (dd sp : String)
    (reinstall : Bool) (w : Workspace) :
    (reinstall = false → path_exists (fs_ls dd w.datasets) = true →
        install_datasets source dd sp reinstall w = (w, [])) ∧
    (¬ (reinstall = false ∧ path_exists (fs_ls dd w.datasets) = true) →
        install_datasets source dd sp reinstall w =
          ({ w with datasets := some source },
           (if path_exists (fs_ls dd w.datasets) then [FsOp.rm dd true] else [])
             ++ [FsOp.cp sp dd true])) := by
  rw [path_exists_fs_ls, install_datasets_eq]
  constructor
  · rintro rfl hex
    simp [hex]
  · intro h
    cases hr : reinstall with
    | false =>
        cases hex : w.datasets.isSome with
        | false => simp [hex]
        | true => exact absurd ⟨rfl, hex⟩ (hr ▸ h)
    | true =>
        cases hex : w.datasets.isSome with
        | false => simp [hex]
        | true => simp [hex]

/-- Witness for C2: on a workspace with an installed datasets directory and
`reinstall=False`, `install_datasets` is a no-op with an empty trace. -/
theorem install_datasets_conditional_witness :
    install_datasets (FSNode.dir []) "dbfs:/user/dl/datasets" "wasbs:/courseware/v01"
        false ⟨none, none, none, some (FSNode.dir [])⟩ =
      (⟨none, none, none, some (FSNode.dir [])⟩, []) :=
  (install_datasets_conditional (FSNode.dir []) "dbfs:/user/dl/datasets"
      "wasbs:/courseware/v01" false ⟨none, none, none, some (FSNode.dir [])⟩).1
    rfl (by rfl)

/-- C3: whenever reading the widget or the first `install_datasets` call
raises, the cell runs `install_datasets(reinstall=False)` as a fallback
followed by `validate_datasets`; and in every execution `validate_datasets`
is the final call of the cell. -/
theorem setup_sequence_fallback (widget : Except String String) (fir : Bool) :
    ((∃ e, widget = Except.error e) ∨ fir = true →
        ∃ pre, setup_sequence widget fir =
          pre ++ [SetupCall.install false, SetupCall.validate]) ∧
    (setup_sequence widget fir).getLast? = some SetupCall.validate := by
  constructor
  · intro h
    cases widget with
    | error e => exact ⟨[], rfl⟩
    | ok s =>
        rcases h with ⟨e, he⟩ | hf
        · simp at he
        · subst hf
          exact ⟨[SetupCall.install (s.toLower == "true")], rfl⟩
  · cases widget with
    | error e => rfl
    | ok s => cases fir <;> rfl

/-- Witness for C3: with the widget read raising, the executed sequence
ends with the fallback install followed by validation. -/
theorem setup_sequence_fallback_witness :
    ∃ pre, setup_sequence (Except.error "no widget named reinstall") false =
      pre ++ [SetupCall.install false, SetupCall.validate] :=
  (setup_sequence_fallback (Except.error "no widget named reinstall") false).1
    (Or.inl ⟨"no widget named reinstall", rfl⟩)

/-- Unfolding equation of `setup_filesystem`. -/
theorem setup_filesystem_eq (source : FSNode) (dd sp : String)
    (reinstall : Bool) (w : Workspace) :
    setup_filesystem source dd sp reinstall w =
      (install_datasets source dd sp reinstall
        { w with userhome := fs_mkdirs w.userhome,
                 course_dir := fs_mkdirs w.course_dir,
                 working_dir := fs_mkdirs w.working_dir }).1 := rfl

/-- A second setup run over a workspace whose four locations all exist is
the identity. -/
theorem setup_filesystem_second (source : FSNode) (dd sp : String) (v : Workspace)
    (hu : v.userhome.isSome = true) (hc : v.course_dir.isSome = true)
    (hw : v.working_dir.isSome = true) (hd : v.datasets.isSome = true) :
    setup_filesystem source dd sp false v = v := by
  rw [setup_filesystem_eq, fs_mkdirs_of_isSome _ hu, fs_mkdirs_of_isSome _ hc,
      fs_mkdirs_of_isSome _ hw]
  show (install_datasets source dd sp false v).1 = v
  rw [install_datasets_eq]
  simp [hd]

/-- C4: `dbutils.fs.mkdirs` on an existing directory changes nothing, a
second `install_datasets(reinstall=False)` after an install takes the skip
branch with no `rm`/`cp`, and running the setup sequence twice gives the
same filesystem as running it once. -/
theorem setup_idempotent (source : FSNode) (dd sp : String) (reinstall : Bool)
    (w : Workspace) :
    (∀ t, fs_mkdirs (some t) = some t) ∧
    (install_datasets source dd sp false (install_datasets source dd sp reinstall w).1 =
        ((install_datasets source dd sp reinstall w).1, [])) ∧
    (setup_filesystem source dd sp false (setup_filesystem source dd sp reinstall w) =
        setup_filesystem source dd sp reinstall w) := by
  have second : ∀ v : Workspace, v.datasets.isSome = true →
      install_datasets source dd sp false v = (v, []) := by
    intro v hv
    rw [install_datasets_eq]
    simp [hv]
  refine ⟨fun t => rfl, ?_, ?_⟩
  · exact second _ (install_datasets_isSome source dd sp reinstall w)
  · have hv := install_datasets_other_fields source dd sp reinstall
      { w with userhome := fs_mkdirs w.userhome, course_dir := fs_mkdirs w.course_dir,
               working_dir := fs_mkdirs w.working_dir }
    refine setup_filesystem_second source dd sp _ ?_ ?_ ?_ ?_
    · rw [setup_filesystem_eq, hv.1]
      exact fs_mkdirs_isSome _
    · rw [setup_filesystem_eq, hv.2.1]
      exact fs_mkdirs_isSome _
    · rw [setup_filesystem_eq, hv.2.2]
      exact fs_mkdirs_isSome _
    · rw [setup_filesystem_eq]
      exact install_datasets_isSome _ _ _ _ _

/-- C1: `validate_datasets` returns normally precisely when the recursive
listing of the local datasets directory and the recursive listing of the
remote source path hold exactly the same relative paths, and raises
precisely when some relative path is in one listing but not the other. -/
theorem validate_datasets_ok_iff (dd sp : String) (localT remoteT : FSNode) :
    validate_datasets dd sp localT remoteT = Except.ok () ↔
      (∀ f, f ∈ list_r dd dd localT [] ↔ f ∈ list_r sp sp remoteT []) := by
  unfold validate_datasets
  simp only [List.any_eq_true, List.contains, List.elem_eq_mem, Bool.not_eq_true',
    decide_eq_false_iff_not]
  by_cases h1 : ∃ x ∈ list_r dd dd localT [], x ∉ list_r sp sp remoteT []
  · rw [if_pos h1]
    constructor
    · intro h
      exact absurd h (by simp)
    · intro hiff
      obtain ⟨x, hx, hnx⟩ := h1
      exact absurd ((hiff x).mp hx) hnx
  · rw [if_neg h1]
    by_cases h2 : ∃ x ∈ list_r sp sp remoteT [], x ∉ list_r dd dd localT []
    · rw [if_pos h2]
      constructor
      · intro h
        exact absurd h (by simp)
      · intro hiff
        obtain ⟨x, hx, hnx⟩ := h2
        exact absurd ((hiff x).mpr hx) hnx
    · rw [if_neg h2]
      push_neg at h1 h2
      exact ⟨fun _ f => ⟨fun hf => h1 f hf, fun hf => h2 f hf⟩, fun _ => rfl⟩

mutual
/-- The children loop of `list_r` accumulates onto `res` exactly the
prefix-stripped descendant paths contributed by the children list. -/
theorem listFiles_perm : ∀ (cp pre : String) (cs : List (String × FSNode))
    (res : List String),
    (listFiles cp pre cs res).Perm
      (res ++ (descChildren cp cs).map (fun s => s.drop pre.length))
  | cp, pre, [], res => by
      simp [listFiles, descChildren]
  | cp, pre, ⟨name, FSNode.file⟩ :: rest, res => by
      have h1 := listFiles_perm cp pre rest
        (res ++ [(entryPath cp name FSNode.file).drop pre.length])
      simp only [listFiles, descChildren, descPaths, FSNode.isDir, Bool.false_eq_true,
        if_false, List.map_cons, List.map_append, List.nil_append, List.cons_append,
        List.map_nil]
      simpa [List.append_assoc] using h1
  | cp, pre, ⟨name, FSNode.dir cs2⟩ :: rest, res => by
      have h2 := list_r_perm (entryPath cp name (FSNode.dir cs2)) pre (FSNode.dir cs2)
        (res ++ [(entryPath cp name (FSNode.dir cs2)).drop pre.length])
      have h1 := listFiles_perm cp pre rest
        (list_r (entryPath cp name (FSNode.dir cs2)) pre (FSNode.dir cs2)
          (res ++ [(entryPath cp name (FSNode.dir cs2)).drop pre.length]))
      have h3 := h1.trans (h2.append_right _)
      simp only [listFiles, descChildren, FSNode.isDir, if_true]
      simpa [List.append_assoc] using h3

/-- `list_r` accumulates onto `res` exactly the prefix-stripped paths of
the transitive descendants of the listed node. -/
theorem list_r_perm : ∀ (path pre : String) (t : FSNode) (res : List String),
    (list_r path pre t res).Perm
      (res ++ (descPaths path t).map (fun s => s.drop pre.length))
  | path, pre, FSNode.file, res => by
      simp [list_r, descPaths]
  | path, pre, FSNode.dir cs, res => by
      have h1 := listFiles_perm (dirSlash path) pre cs res
      simp only [list_r, descPaths]
      exact (List.mergeSort_perm _ _).trans h1
end

/-- The list returned by `list_r` is sorted in ascending string order. -/
theorem list_r_sorted (path pre : String) (t : FSNode) :
    List.Pairwise (fun a b : String => a ≤ b) (list_r path pre t []) := by
  cases t with
  | file => simp [list_r]
  | dir cs =>
      simp only [list_r]
      refine List.Pairwise.imp ?_
        (List.sorted_mergeSort ?_ ?_ (listFiles (dirSlash path) pre cs []))
      · intro a b hab
        simpa using hab
      · intro a b c hab hbc
        simp only [decide_eq_true_eq] at hab hbc ⊢
        exact le_trans hab hbc
      · intro a b
        simpa using le_total a b

/-- C7: on a directory root, `list_r` returns the prefix-stripped full
paths of exactly the transitive descendants (files and directories at
every depth), sorted in ascending order. -/
theorem list_r_spec (path pre : String) (t : FSNode) (_h : t.isDir = true) :
    (list_r path pre t []).Perm
      ((descPaths path t).map (fun s => s.drop pre.length)) ∧
    List.Pairwise (fun a b : String => a ≤ b) (list_r path pre t []) := by
  refine ⟨?_, list_r_sorted path pre t⟩
  simpa using list_r_perm path pre t []

/-- Witness for C7: a two-level directory is listed, stripped and sorted as
stated. -/
theorem list_r_spec_witness :
    (FSNode.dir [("b", FSNode.file), ("a", FSNode.dir [("c", FSNode.file)])]).isDir
        = true ∧
    ((list_r "dbfs:/data" "dbfs:/data"
        (FSNode.dir [("b", FSNode.file), ("a", FSNode.dir [("c", FSNode.file)])])
        []).Perm
      ((descPaths "dbfs:/data"
          (FSNode.dir [("b", FSNode.file), ("a", FSNode.dir [("c", FSNode.file)])])).map
        (fun s => s.drop "dbfs:/data".length)) ∧
     List.Pairwise (fun a b : String => a ≤ b)
       (list_r "dbfs:/data" "dbfs:/data"
         (FSNode.dir [("b", FSNode.file), ("a", FSNode.dir [("c", FSNode.file)])]) [])) :=
  ⟨rfl, list_r_spec "dbfs:/data" "dbfs:/data"
    (FSNode.dir [("b", FSNode.file), ("a", FSNode.dir [("c", FSNode.file)])]) rfl⟩

/-- C5: applying the registered `predictUDF` through SQL computes, row for
row, the same predictions as applying the `spark_udf` `predict` through the
DataFrame API, for every prediction function and every frame. -/
theorem predictUDF_matches_withColumn {α β : Type} (env : UdfRegistry α β)
    (predict : List α → β) (df : List (Row α)) :
    sql_predictions (udf_register env "predictUDF" predict) df =
      (withColumn_predictions predict df).map some := by
  simp [sql_predictions, withColumn_predictions, udf_register]

/-- `dict_set` keeps the keys of a dict duplicate-free. -/
theorem dict_set_keys_nodup {α : Type} {d : List (String × α)}
    (h : (d.map Prod.fst).Nodup) (k : String) (v : α) :
    ((dict_set d k v).map Prod.fst).Nodup := by
  unfold dict_set
  split
  · next hany =>
      have hkeys : (d.map (fun p => if p.1 == k then (k, v) else p)).map Prod.fst
          = d.map Prod.fst := by
        rw [List.map_map]
        refine List.map_congr_left ?_
        intro p hp
        by_cases hpk : p.1 = k
        · simp [hpk]
        · simp [hpk]
      rw [hkeys]
      exact h
  · next hany =>
      rw [List.map_append]
      rw [List.nodup_append]
      refine ⟨h, by simp, ?_⟩
      intro a ha hb
      simp only [List.map_cons, List.map_nil, List.mem_singleton] at hb
      subst hb
      simp only [List.mem_map] at ha
      obtain ⟨p, hp, hpa⟩ := ha
      apply hany
      refine List.any_eq_true.mpr ⟨p, hp, ?_⟩
      simp [hpa]

/-- `dict_merge` keeps the keys of the base dict duplicate-free. -/
theorem dict_merge_keys_nodup {α : Type} {a : List (String × α)}
    (h : (a.map Prod.fst).Nodup) (b : List (String × α)) :
    ((dict_merge a b).map Prod.fst).Nodup := by
  induction b generalizing a with
  | nil => exact h
  | cons kv rest ih => exact ih (dict_set_keys_nodup h kv.1 kv.2)

/-- Every `hidden_layer_{i}_units` key has at least 19 characters. -/
theorem hidden_layer_key_length (i : Nat) : 19 ≤ (hidden_layer_key i).length := by
  unfold hidden_layer_key
  rw [String.length_append, String.length_append]
  have h1 : ("hidden_layer_" : String).length = 13 := rfl
  have h2 : ("_units" : String).length = 6 := rfl
  omega

/-- A short string is never a `hidden_layer_{i}_units` key. -/
theorem hidden_layer_key_ne (i : Nat) (s : String) (hs : s.length ≤ 18) :
    hidden_layer_key i ≠ s := by
  intro he
  have := hidden_layer_key_length i
  rw [he] at this
  omega

/-- In a duplicate-free list a member is counted exactly once. -/
theorem count_one_of_nodup_mem {β : Type} [BEq β] [LawfulBEq β] {l : List β} {a : β}
    (hn : l.Nodup) (ha : a ∈ l) : l.count a = 1 := by
  induction l with
  | nil => simp at ha
  | cons x xs ih =>
      rcases List.mem_cons.mp ha with rfl | hxs
      · rw [List.count_cons_self]
        have hnot : a ∉ xs := (List.nodup_cons.mp hn).1
        rw [List.count_eq_zero.mpr hnot]
      · have hne : a ≠ x := by
          intro he
          exact (List.nodup_cons.mp hn).1 (he ▸ hxs)
        rw [List.count_cons_of_ne hne]
        exact ih (List.nodup_cons.mp hn).2 hxs

/-- Mapping by an injective function preserves element counts. -/
theorem count_map_inj {β γ : Type} [BEq β] [LawfulBEq β] [BEq γ] [LawfulBEq γ]
    (l : List β) (f : β → γ) (hf : ∀ a b, f a = f b → a = b) (x : β) :
    (l.map f).count (f x) = l.count x := by
  induction l with
  | nil => rfl
  | cons y ys ih =>
      simp only [List.map_cons]
      by_cases hxy : x = y
      · subst hxy
        rw [List.count_cons_self, List.count_cons_self, ih]
      · rw [List.count_cons_of_ne (fun h => hxy (hf x y h)),
          List.count_cons_of_ne hxy, ih]

/-- C8 counterexample: at the notebook's ADAM call (its `compile_kwargs`
and `fit_kwargs`, empty `optional_params`, the three layers of
`build_model`) the logged param keys are NOT exactly the merged keys minus
`x` and `y`: `hidden_layer_0_units` is logged too. -/
theorem track_experiments_params_not_exactly :
    ¬ (∀ k, k ∈ (track_experiments_params adam_compile_kwargs adam_fit_kwargs
          ([] : List (String × String)) build_model_layer_units).map Prod.fst ↔
        (k ∈ (dict_merge (dict_merge adam_compile_kwargs adam_fit_kwargs)
            ([] : List (String × String))).map Prod.fst ∧
          k ≠ "x" ∧ k ≠ "y")) := by
  intro h
  have h0 := (h "hidden_layer_0_units").mp (by decide)
  exact absurd h0.1 (by decide)

/-- C8 (amended): `track_experiments` logs, as MLflow params, each key of
the merged `compile_kwargs`/`fit_kwargs`/`optional_params` other than `x`
and `y` exactly once with its merged value, never logs `x` or `y`, and in
addition logs one `hidden_layer_{i}_units` param per model layer with the
layer's output width — and nothing else. -/
theorem track_experiments_params_spec {α : Type} [DecidableEq α]
    (c f o : List (String × α)) (layer_units : List Nat)
    (hc : (c.map Prod.fst).Nodup) :
    (∀ pv, ("x", pv) ∉ track_experiments_params c f o layer_units) ∧
    (∀ pv, ("y", pv) ∉ track_experiments_params c f o layer_units) ∧
    (∀ k v, (k, v) ∈ dict_merge (dict_merge c f) o → k ≠ "x" → k ≠ "y" →
        (track_experiments_params c f o layer_units).count (k, ParamValue.kw v) = 1) ∧
    (∀ p, p ∈ layer_units.enum →
        (hidden_layer_key p.1, ParamValue.units p.2)
          ∈ track_experiments_params c f o layer_units) ∧
    (∀ k pv, (k, pv) ∈ track_experiments_params c f o layer_units →
        (∃ v, pv = ParamValue.kw v ∧ (k, v) ∈ dict_merge (dict_merge c f) o ∧
            k ≠ "x" ∧ k ≠ "y") ∨
        (∃ p, p ∈ layer_units.enum ∧ k = hidden_layer_key p.1 ∧
            pv = ParamValue.units p.2)) := by
  have hmerged : ((dict_merge (dict_merge c f) o).map Prod.fst).Nodup :=
    dict_merge_keys_nodup (dict_merge_keys_nodup hc f) o
  have hnodup : (dict_merge (dict_merge c f) o).Nodup := hmerged.of_map _
  refine ⟨?_, ?_, ?_, ?_, ?_⟩
  · intro pv hmem
    unfold track_experiments_params at hmem
    rcases List.mem_append.mp hmem with hkw | hlay
    · simp only [List.mem_map, List.mem_filter] at hkw
      obtain ⟨kv, ⟨_, hpred⟩, heq⟩ := hkw
      have hk : kv.1 = "x" := congrArg Prod.fst heq
      simp [hk] at hpred
    · simp only [List.mem_map] at hlay
      obtain ⟨p, _, heq⟩ := hlay
      exact hidden_layer_key_ne p.1 "x" (by decide) (congrArg Prod.fst heq)
  · intro pv hmem
    unfold track_experiments_params at hmem
    rcases List.mem_append.mp hmem with hkw | hlay
    · simp only [List.mem_map, List.mem_filter] at hkw
      obtain ⟨kv, ⟨_, hpred⟩, heq⟩ := hkw
      have hk : kv.1 = "y" := congrArg Prod.fst heq
      simp [hk] at hpred
    · simp only [List.mem_map] at hlay
      obtain ⟨p, _, heq⟩ := hlay
      exact hidden_layer_key_ne p.1 "y" (by decide) (congrArg Prod.fst heq)
  · intro k v hmem hkx hky
    unfold track_experiments_params
    have hinj : Function.Injective
        (fun kv : String × α => (kv.1, ParamValue.kw kv.2)) := by
      intro a b hab
      simp only [Prod.mk.injEq, ParamValue.kw.injEq] at hab
      exact Prod.ext hab.1 hab.2
    have hcount1 : (((dict_merge (dict_merge c f) o).filter
          (fun kv => !(kv.1 == "x" || kv.1 == "y"))).map
          (fun kv => (kv.1, ParamValue.kw kv.2))).count (k, ParamValue.kw v)
        = ((dict_merge (dict_merge c f) o).filter
          (fun kv => !(kv.1 == "x" || kv.1 == "y"))).count (k, v) :=
      count_map_inj _ _ (fun a b hab => hinj hab) (k, v)
    have hpred : (fun kv : String × α => !(kv.1 == "x" || kv.1 == "y")) (k, v)
        = true := by
      simp [hkx, hky]
    have hfilter : ((dict_merge (dict_merge c f) o).filter
          (fun kv => !(kv.1 == "x" || kv.1 == "y"))).count (k, v)
        = (dict_merge (dict_merge c f) o).count (k, v) :=
      List.count_filter hpred
    have hcount0 : ((layer_units.enum).map
          (fun p => (hidden_layer_key p.1, ParamValue.units p.2))).count
          (k, ParamValue.kw v) = 0 := by
      rw [List.count_eq_zero]
      intro hmem2
      simp only [List.mem_map] at hmem2
      obtain ⟨p, _, heq⟩ := hmem2
      have hsnd := congrArg Prod.snd heq
      simp at hsnd
    rw [List.count_append, hcount1, hfilter, hcount0,
      count_one_of_nodup_mem hnodup hmem]
  · intro p hp
    unfold track_experiments_params
    refine List.mem_append.mpr (Or.inr ?_)
    exact List.mem_map.mpr ⟨p, hp, rfl⟩
  · intro k pv hmem
    unfold track_experiments_params at hmem
    rcases List.mem_append.mp hmem with hkw | hlay
    · left
      simp only [List.mem_map, List.mem_filter] at hkw
      obtain ⟨kv, ⟨hkvmem, hpred⟩, heq⟩ := hkw
      refine ⟨kv.2, ?_, ?_, ?_, ?_⟩
      · exact (congrArg Prod.snd heq).symm
      · have hk : kv.1 = k := congrArg Prod.fst heq
        rw [← hk]
        exact hkvmem
      · intro hk
        have h1 : kv.1 = k := congrArg Prod.fst heq
        rw [h1, hk] at hpred
        simp at hpred
      · intro hk
        have h1 : kv.1 = k := congrArg Prod.fst heq
        rw [h1, hk] at hpred
        simp at hpred
    · right
      simp only [List.mem_map] at hlay
      obtain ⟨p, hp, heq⟩ := hlay
      exact ⟨p, hp, (congrArg Prod.fst heq).symm, (congrArg Prod.snd heq).symm⟩

/-- Witness for C8 (amended): the notebook's ADAM-run dicts have
duplicate-free keys and their training data key `x` is never logged. -/
theorem track_experiments_params_spec_witness :
    (adam_compile_kwargs.map Prod.fst).Nodup ∧
    (∀ pv, ("x", pv) ∉ track_experiments_params adam_compile_kwargs adam_fit_kwargs
        ([] : List (String × String)) build_model_layer_units) :=
  ⟨by decide,
   (track_experiments_params_spec adam_compile_kwargs adam_fit_kwargs []
      build_model_layer_units (by decide)).1⟩

end DLCourse
